import Mathlib

/-!
Verification development for the botan-server synchronization and
orchestration engine.  The definitions below are a shallow embedding of
the TypeScript services (`FTPSyncService`, `JobSchedulerService`,
`PythonConverterService`): JavaScript strings are modelled as `List Char`
(UTF-16 code units, all characters involved are in the BMP), timestamps
as natural numbers of milliseconds, and the effectful environment
(remote listings, local `stat` results, per-attempt fetch outcomes,
subprocess exits) as explicit oracle parameters.  Theorems settling the
spec claims follow the definitions.
-/

namespace BotanServer

/-! ### Filename normalizer (`FTPSyncService.sanitizeFilename`)

`sanitized.replace(new RegExp(encoded, this-g-flag), correct)` performs a
left-to-right, non-overlapping global replacement that does not rescan
replaced text; `replaceFromAux` models it with an explicit fuel argument
(one unit per consumed character, so `s.length` fuel always suffices),
keeping the function kernel-reducible.  A pattern is the nonempty list
`k0 :: kt`. -/

/-- Boolean prefix test on character lists (mirrors matching the pattern
at the current scan position). -/
def leadsWith : List Char → List Char → Bool
  | [], _ => true
  | _ :: _, [] => false
  | a :: as, b :: bs => a == b && leadsWith as bs

/-- One global replacement pass `s.replace(new RegExp(k, g-flag), v)`,
where the pattern is `k0 :: kt` and `v` the replacement. -/
def replaceFromAux (k0 : Char) (kt v : List Char) : Nat → List Char → List Char
  | 0, s => s
  | _ + 1, [] => []
  | fuel + 1, c :: rest =>
    if c = k0 ∧ leadsWith kt rest = true then
      v ++ replaceFromAux k0 kt v fuel (rest.drop kt.length)
    else
      c :: replaceFromAux k0 kt v fuel rest

/-- One corrupted-sequence mapping of the `encodingFixes` table: the key
is `k0 :: kt` and the value `v`. -/
structure EncFix where
  k0 : Char
  kt : List Char
  v : List Char
deriving DecidableEq

/-- The key of a mapping, as a character list. -/
def fixKey (f : EncFix) : List Char := f.k0 :: f.kt

/-- Apply one mapping to a string (one `String.prototype.replace` call). -/
def applyFix (f : EncFix) (s : List Char) : List Char :=
  replaceFromAux f.k0 f.kt f.v s.length s

/-- Apply a table of mappings in order (the `for ... of Object.entries`
loop). -/
def applyFixes (fs : List EncFix) (s : List Char) : List Char :=
  fs.foldl (fun acc f => applyFix f acc) s

/-- The `encodingFixes` table of `sanitizeFilename`, transcribed byte for
byte from the source (all 13 object keys are pairwise distinct strings,
so JavaScript object-literal semantics keeps them all, in insertion
order).  Keys are mis-decoded UTF-8 sequences over the characters
U+00C3, U+00C2, U+0090, U+0084, U+0096, U+009C, U+00A4, U+00B6, U+00BC,
U+009F; values are the single repaired characters. -/
def encodingFixes : List EncFix :=
  [ ⟨Char.ofNat 0xC3, [Char.ofNat 0xC2, Char.ofNat 0xC3, Char.ofNat 0xC2], [Char.ofNat 0xDC]⟩,
    ⟨Char.ofNat 0xC3, [Char.ofNat 0xC2, Char.ofNat 0xC3, Char.ofNat 0xA4], [Char.ofNat 0xE4]⟩,
    ⟨Char.ofNat 0xC3, [Char.ofNat 0xC2, Char.ofNat 0xC3, Char.ofNat 0xB6], [Char.ofNat 0xF6]⟩,
    ⟨Char.ofNat 0xC3, [Char.ofNat 0xC2, Char.ofNat 0xC3, Char.ofNat 0xBC], [Char.ofNat 0xFC]⟩,
    ⟨Char.ofNat 0xC3, [Char.ofNat 0xC2, Char.ofNat 0xC3, Char.ofNat 0x9F], [Char.ofNat 0xDF]⟩,
    ⟨Char.ofNat 0xC3, [Char.ofNat 0x90], [Char.ofNat 0xDC]⟩,
    ⟨Char.ofNat 0xC3, [Char.ofNat 0x84], [Char.ofNat 0xC4]⟩,
    ⟨Char.ofNat 0xC3, [Char.ofNat 0x96], [Char.ofNat 0xD6]⟩,
    ⟨Char.ofNat 0xC3, [Char.ofNat 0x9C], [Char.ofNat 0xDC]⟩,
    ⟨Char.ofNat 0xC3, [Char.ofNat 0xA4], [Char.ofNat 0xE4]⟩,
    ⟨Char.ofNat 0xC3, [Char.ofNat 0xB6], [Char.ofNat 0xF6]⟩,
    ⟨Char.ofNat 0xC3, [Char.ofNat 0xBC], [Char.ofNat 0xFC]⟩,
    ⟨Char.ofNat 0xC3, [Char.ofNat 0x9F], [Char.ofNat 0xDF]⟩ ]

/-- `FTPSyncService.sanitizeFilename`: apply every encoding fix, in table
order, to the filename. -/
def sanitizeFilename (s : List Char) : List Char :=
  applyFixes encodingFixes s

/-- Boolean occurrence test: does the pattern `k` occur as a contiguous
substring of `s`?  (`k` is a mapping key, always nonempty.) -/
def occursB (k : List Char) : List Char → Bool
  | [] => k.isEmpty
  | c :: rest => leadsWith k (c :: rest) || occursB k rest

/-! ### Directory sync engine (`FTPSyncService.syncDirectory`,
`processFileWithRetry`, `downloadFileWithRetry`) -/

/-- `FTPFileInfo` entries pushed into `stats.files` for each downloaded
file. -/
structure FTPFileInfo where
  name : List Char
  size : Nat
  localPath : List Char
  remotePath : List Char
deriving DecidableEq

/-- `FTPSyncStats`, the per-directory aggregate. -/
structure FTPSyncStats where
  downloaded : Nat
  skipped : Nat
  errors : Nat
  files : List FTPFileInfo
deriving DecidableEq

/-- Result of `fs.stat` on the local mirror path: the file may be
absent, `stat` may throw, or it reports size and mtime (ms). -/
inductive LocalProbe
  | absent
  | statError
  | present (size : Nat) (mtimeMs : Nat)
deriving DecidableEq

/-- Outcome of one `downloadFile` invocation, as classified by
`downloadFileWithRetry`: success, a failure whose message contains the
text about a missing remote entry, or any other failure. -/
inductive FetchResult
  | ok
  | failNotFound
  | failOther
deriving DecidableEq

/-- `Math.round(remoteSize * 0.02)` with exact rational arithmetic;
`Math.round` rounds ties toward positive infinity.  (For every size the
IEEE-754 product `remoteSize * 0.02` rounds to the same integer as the
exact value `remoteSize / 50`: the two differ only near half-integers,
where the slightly-above representation of `0.02` and the tie-up rule
agree.) -/
def jsRound02 (remoteSize : Nat) : Nat := (2 * remoteSize + 50) / 100

/-- `sizeToleranceBytes`: at least 10 bytes, else 2% of the remote
size. -/
def sizeToleranceBytes (remoteSize : Nat) : Nat :=
  max 10 (jsRound02 remoteSize)

/-- `sizesAreClose`: absolute size difference within tolerance. -/
def sizesAreCloseB (localSize remoteSize : Nat) : Bool :=
  max localSize remoteSize - min localSize remoteSize ≤ sizeToleranceBytes remoteSize

/-- The `shouldDownload` decision of `processFileWithRetry`: download
unless the local file exists, its stat succeeds, its mtime is at least
the remote mtime, its size matches or is within tolerance, and its size
is positive. -/
def shouldDownloadB (probe : LocalProbe) (remoteSize remoteMtimeMs : Nat) : Bool :=
  match probe with
  | .absent => true
  | .statError => true
  | .present localSize localMtimeMs =>
    if remoteMtimeMs ≤ localMtimeMs ∧
        (localSize = remoteSize ∨ sizesAreCloseB localSize remoteSize = true) ∧
        0 < localSize then
      false
    else
      true

/-- One remote regular-file entry together with the environment it is
processed against: the listing metadata, the local probe, the sequence
of outcomes of successive `downloadFile` invocations for this file, and
the number of alternative filenames `generateFilenameAlternatives`
produces for it. -/
structure FileCtx where
  name : List Char
  size : Nat
  mtimeMs : Nat
  isRegular : Bool
  probe : LocalProbe
  fetch : Nat → FetchResult
  numAlts : Nat

/-- The alternative-filename loop inside `downloadFileWithRetry`: try
each of the `n` alternatives in turn, consuming one fetch outcome each,
until one succeeds.  Returns success flag and next oracle index. -/
def tryAlternatives (f : Nat → FetchResult) : Nat → Nat → Bool × Nat
  | 0, i => (false, i)
  | n + 1, i =>
    if f i = .ok then (true, i + 1)
    else tryAlternatives f n (i + 1)

/-- The attempt loop of `downloadFileWithRetry`: `rem` attempts remain,
`attempt` is the 1-based attempt counter, `i` the next oracle index.  On
a not-found failure at attempt 1 the alternatives are tried before the
next attempt. -/
def dfwrAux (f : Nat → FetchResult) (numAlts : Nat) : Nat → Nat → Nat → Bool × Nat
  | 0, _, i => (false, i)
  | rem + 1, attempt, i =>
    if f i = .ok then (true, i + 1)
    else if f i = .failNotFound ∧ attempt = 1 then
      let p := tryAlternatives f numAlts (i + 1)
      if p.1 then (true, p.2) else dfwrAux f numAlts rem (attempt + 1) p.2
    else dfwrAux f numAlts rem (attempt + 1) (i + 1)

/-- `downloadFileWithRetry` with its default `maxRetries = 3`. -/
def downloadFileWithRetry (f : Nat → FetchResult) (numAlts : Nat) (i : Nat) : Bool × Nat :=
  dfwrAux f numAlts 3 1 i

/-- `path.join(dir, name)` over the directory separator. -/
def joinPath (dir name : List Char) : List Char := dir ++ '/' :: name

/-- `processFileWithRetry`: decide whether to download; on download
success increment `downloaded` and push the `FTPFileInfo` (with the
sanitized name as local storage key and the original name for the
remote path); on a skip increment `skipped`; a download failure re-throws
with the stats untouched.  Returns (no-exception flag, stats, next
oracle index). -/
def processFileWithRetry (remoteDir localDir : List Char) (ctx : FileCtx)
    (i : Nat) (stats : FTPSyncStats) : Bool × FTPSyncStats × Nat :=
  if shouldDownloadB ctx.probe ctx.size ctx.mtimeMs then
    let r := downloadFileWithRetry ctx.fetch ctx.numAlts i
    if r.1 then
      (true,
        { stats with
          downloaded := stats.downloaded + 1,
          files := stats.files ++
            [{ name := sanitizeFilename ctx.name,
               size := ctx.size,
               localPath := joinPath localDir (sanitizeFilename ctx.name),
               remotePath := joinPath remoteDir ctx.name }] },
        r.2)
    else
      (false, stats, r.2)
  else
    (true, { stats with skipped := stats.skipped + 1 }, i)

/-- The per-file outer retry loop of `syncDirectory` (`maxRetries = 3`):
retry `processFileWithRetry` until it succeeds or the attempts are
exhausted, in which case `stats.errors` is incremented once. -/
def processOuter (remoteDir localDir : List Char) (ctx : FileCtx) :
    Nat → Nat → FTPSyncStats → FTPSyncStats × Nat
  | 0, i, stats => ({ stats with errors := stats.errors + 1 }, i)
  | rem + 1, i, stats =>
    match processFileWithRetry remoteDir localDir ctx i stats with
    | (true, stats2, j) => (stats2, j)
    | (false, _, j) => processOuter remoteDir localDir ctx rem j stats

/-- Processing of one file inside the batch loop (fresh oracle index per
file, three outer attempts). -/
def runFileStep (remoteDir localDir : List Char) (stats : FTPSyncStats)
    (ctx : FileCtx) : FTPSyncStats :=
  (processOuter remoteDir localDir ctx 3 0 stats).1

/-- Sequential processing of the files of one batch. -/
def runBatch (remoteDir localDir : List Char) (stats : FTPSyncStats)
    (batch : List FileCtx) : FTPSyncStats :=
  batch.foldl (runFileStep remoteDir localDir) stats

/-- `chunkArray`, fuelled (the source slices `size` elements at a time;
`size` is always the positive constant 20 at the call site). -/
def chunkArrayAux (size : Nat) : Nat → List FileCtx → List (List FileCtx)
  | 0, _ => []
  | _ + 1, [] => []
  | fuel + 1, x :: xs => (x :: xs).take size :: chunkArrayAux size fuel ((x :: xs).drop size)

/-- `chunkArray(array, size)`. -/
def chunkArray (l : List FileCtx) (size : Nat) : List (List FileCtx) :=
  chunkArrayAux size l.length l

/-- `syncDirectory`: filter the listing to regular files, split into
batches of 20, and process every batch sequentially starting from
all-zero stats.  (Connection refreshes, backoff delays and progress
logging do not touch the statistics and are not modelled.) -/
def syncDirectory (remoteDir localDir : List Char) (listing : List FileCtx) : FTPSyncStats :=
  let regularFiles := listing.filter (fun f => f.isRegular)
  let batches := chunkArray regularFiles 20
  batches.foldl (runBatch remoteDir localDir) ⟨0, 0, 0, []⟩

/-! ### Transfer client adapter (`connect`, `disconnect`, `downloadFile`,
`testConnection`, `syncAll`) -/

/-- The local filesystem as an association list from path to byte count
(only the metadata the adapter touches). -/
def FS := List (List Char × Nat)

/-- Write (truncate-and-create) a file of `n` bytes at `p`. -/
def fsSet (fs : FS) (p : List Char) (n : Nat) : FS :=
  (p, n) :: fs.filter (fun e => !(e.1 == p))

/-- `fs.removeSync p`. -/
def fsRemove (fs : FS) (p : List Char) : FS :=
  fs.filter (fun e => !(e.1 == p))

/-- Look up the byte count of the file at `p`, if present. -/
def fsGet (fs : FS) (p : List Char) : Option Nat :=
  (fs.find? (fun e => e.1 == p)).map (fun e => e.2)

/-- How one `downloadFile(remotePath, localPath)` invocation ends:
`client.get` errors before a write stream exists; the stream completes
after `bytes` bytes; the stream or the write stream errors after a
partial write; or the stall timer fires after a partial write. -/
inductive DownloadEvent
  | getError (msg : List Char)
  | completed (bytes : Nat)
  | streamError (bytesSoFar : Nat) (msg : List Char)
  | writeError (bytesSoFar : Nat) (msg : List Char)
  | stalled (bytesSoFar : Nat)

/-- `downloadFile`: not-connected check, then the event handlers.  On a
stream or write error the partial file is removed (`fs.removeSync`)
before rejecting; on a stall the streams are destroyed and the promise
rejected, with the partial file left in place. -/
def downloadFile (isConnected : Bool) (fs : FS) (localPath : List Char)
    (ev : DownloadEvent) : Except (List Char) Unit × FS :=
  if isConnected = false then
    (.error ("FTP not connected".toList), fs)
  else
    match ev with
    | .getError m => (.error ("Failed to download: ".toList ++ m), fs)
    | .completed b => (.ok (), fsSet fs localPath b)
    | .streamError b m =>
      (.error ("Download stream error: ".toList ++ m), fsRemove (fsSet fs localPath b) localPath)
    | .writeError b m =>
      (.error ("File write error: ".toList ++ m), fsRemove (fsSet fs localPath b) localPath)
    | .stalled b =>
      (.error ("Download stalled".toList), fsSet fs localPath b)

/-- How one `connect()` attempt ends: the ready event, an error event
with a message, or the 30-second connection timer. -/
inductive ConnectOutcome
  | ready
  | errorEvt (msg : List Char)
  | timedOut

/-- `connect()`: no-op when already connected; otherwise the ready event
marks the adapter connected, the error event marks it disconnected and
rejects, and the timeout rejects with `FTP connection timeout` without
marking it connected. -/
def connectStep (isConnected : Bool) (o : ConnectOutcome) : Bool × Except (List Char) Unit :=
  if isConnected then (true, .ok ()) else
  match o with
  | .ready => (true, .ok ())
  | .errorEvt m => (false, .error ("FTP connection failed: ".toList ++ m))
  | .timedOut => (false, .error ("FTP connection timeout".toList))

/-- `disconnect()`: ends the client when connected; the adapter is
unconnected afterwards in every case. -/
def disconnect (isConnected : Bool) : Bool :=
  if isConnected then false else isConnected

/-- Result and post-connection state of one `syncDirectory` call made by
`syncAll` (directory sync may itself reconnect, so the connection state
it leaves behind is part of the oracle). -/
structure DirRun where
  result : Except (List Char) FTPSyncStats
  connAfter : Bool

/-- The `FTPSyncResult` aggregate built by `syncAll`. -/
structure FTPSyncResult where
  adressen : FTPSyncStats
  artikel : FTPSyncStats
  history : FTPSyncStats
  totalDownloaded : Nat
  totalSkipped : Nat
  totalErrors : Nat
deriving DecidableEq

/-- `syncAll()`: connect, sync the three directories in order, sum the
totals; the `finally` block disconnects on every path.  Returns the
overall result (or the propagated error) and the final connection
state. -/
def syncAll (conn0 : Bool) (co : ConnectOutcome) (d1 d2 d3 : DirRun) :
    Except (List Char) FTPSyncResult × Bool :=
  let c1 := connectStep conn0 co
  match c1.2 with
  | .error e => (.error e, disconnect c1.1)
  | .ok _ =>
    match d1.result with
    | .error e => (.error e, disconnect d1.connAfter)
    | .ok s1 =>
      match d2.result with
      | .error e => (.error e, disconnect d2.connAfter)
      | .ok s2 =>
        match d3.result with
        | .error e => (.error e, disconnect d3.connAfter)
        | .ok s3 =>
          (.ok
            { adressen := s1, artikel := s2, history := s3,
              totalDownloaded := s1.downloaded + s2.downloaded + s3.downloaded,
              totalSkipped := s1.skipped + s2.skipped + s3.skipped,
              totalErrors := s1.errors + s2.errors + s3.errors },
            disconnect d3.connAfter)

/-- The structured report returned by `testConnection()`. -/
structure TestConnectionResult where
  success : Bool
  message : List Char
deriving DecidableEq

/-- `testConnection()`: connect, list the remote root, and report; any
failure is caught and reported with `success = false`; the `finally`
block disconnects.  The local filesystem is threaded through untouched
(the operation performs no writes).  Returns the report, the final
connection state and the (unchanged) filesystem. -/
def testConnection (conn0 : Bool) (co : ConnectOutcome)
    (listOutcome : Except (List Char) Nat) (fs : FS) :
    TestConnectionResult × Bool × FS :=
  let c1 := connectStep conn0 co
  match c1.2 with
  | .error e =>
    ({ success := false, message := "FTP connection test failed: ".toList ++ e },
      disconnect c1.1, fs)
  | .ok _ =>
    match listOutcome with
    | .error e =>
      ({ success := false, message := "FTP connection test failed: ".toList ++ e },
        disconnect c1.1, fs)
    | .ok n =>
      ({ success := true,
         message := "FTP connection successful. Found ".toList ++ (Nat.repr n).toList ++
           " items in remote directory.".toList },
        disconnect c1.1, fs)

/-! ### Transform collaborator (`PythonConverterService.runConversion`) -/

/-- The optional structured summary read back after a successful run. -/
structure ConversionSummary where
  producedRecords : Nat
  timestampMs : Nat
deriving DecidableEq

/-- `ConversionResult` as resolved on exit code 0. -/
structure ConversionResult where
  success : Bool
  exitCode : Option Int
  stdout : List Char
  stderr : List Char
  summary : Option ConversionSummary
deriving DecidableEq

/-- How the subprocess run ends: the close event with an exit code
(`null` when the process was killed by a signal), a spawn error, or the
5-minute timer. -/
inductive ProcEnd
  | closed (code : Option Int)
  | spawnError (msg : List Char)
  | timedOut

/-- The string interpolation of an exit code (`null` prints as
`null`). -/
def exitCodeText : Option Int → List Char
  | none => "null".toList
  | some n => (toString n).toList

/-- The failure message built for a non-zero exit code:
`Python script failed with exit code <code>: <stderr>`. -/
def conversionFailureMessage (code : Option Int) (stderr : List Char) : List Char :=
  "Python script failed with exit code ".toList ++ exitCodeText code ++ ": ".toList ++ stderr

/-- `runConversion()`: exit code 0 resolves with success (the summary
file is read back; a read failure degrades to a null summary), any other
exit code rejects with the captured stderr in the message; spawn errors
and the timeout reject likewise. -/
def runConversion (outcome : ProcEnd) (stdout stderr : List Char)
    (summaryRead : Except Unit (Option ConversionSummary)) :
    Except (List Char) ConversionResult :=
  match outcome with
  | .closed code =>
    if code = some 0 then
      .ok
        { success := true, exitCode := code, stdout := stdout, stderr := stderr,
          summary := match summaryRead with | .ok s => s | .error _ => none }
    else
      .error (conversionFailureMessage code stderr)
  | .spawnError m => .error ("Failed to start Python process: ".toList ++ m)
  | .timedOut => .error ("Python conversion process timed out".toList)

/-! ### Job orchestrator (`JobSchedulerService`) -/

/-- Step status values. -/
inductive StepStatus
  | running
  | completed
  | failed
deriving DecidableEq

/-- `JobStep`: name, start time, optional end time, status, optional
error payload (modelled by its message). -/
structure JobStep where
  name : List Char
  startTime : Nat
  endTime : Option Nat
  status : StepStatus
  error : Option (List Char)
deriving DecidableEq

/-- Job status values. -/
inductive JobState
  | running
  | completed
  | failed
deriving DecidableEq

/-- `JobStatus` (the fields the claims are about; `ftpStats` and
`conversionResults` are carried as optional payloads). -/
structure JobStatus where
  id : List Char
  type : List Char
  startTime : Nat
  endTime : Option Nat
  duration : Option Nat
  status : JobState
  steps : List JobStep
  error : Option (List Char)
  ftpStats : Option FTPSyncResult
  conversionResults : Option ConversionResult
deriving DecidableEq

/-- `maxHistoryEntries` from the constructor:
`options.maxHistoryEntries || 100` (both absent and 0 fall back to
100). -/
def maxHistoryEntriesOf : Option Nat → Nat
  | some (n + 1) => n + 1
  | _ => 100

/-- JavaScript `array.slice(-n)`: the last `n` elements, except that
`slice(-0)` is the whole array. -/
def jsSliceNeg (n : Nat) (l : List JobStatus) : List JobStatus :=
  if n = 0 then l else l.drop (l.length - n)

/-- `addToHistory`: append the terminal job, then trim to the last
`maxH` entries when capacity is exceeded. -/
def addToHistory (maxH : Nat) (hist : List JobStatus) (job : JobStatus) : List JobStatus :=
  let h2 := hist ++ [job]
  if maxH < h2.length then jsSliceNeg maxH h2 else h2

/-- `getJobHistory(limit?)`: most recent first; a truthy limit slices
the front (`limit = 0` is falsy and returns everything). -/
def getJobHistory (hist : List JobStatus) (limit : Option Nat) : List JobStatus :=
  let h := hist.reverse
  match limit with
  | some (n + 1) => h.take (n + 1)
  | _ => h

/-- `addJobStep`: push a running step, run the step body, and finalize
the pushed step as completed or failed (recording the error); the time
counter advances at each `new Date()` call.  Returns the updated job,
the advanced clock, and the step body's outcome (re-thrown on
failure). -/
def addJobStep (job : JobStatus) (clock : Nat) (stepName : List Char)
    (outcome : Except (List Char) Unit) : JobStatus × Nat × Except (List Char) Unit :=
  match outcome with
  | .ok _ =>
    ({ job with steps := job.steps ++
        [{ name := stepName, startTime := clock, endTime := some (clock + 1),
           status := .completed, error := none }] },
      clock + 2, .ok ())
  | .error e =>
    ({ job with steps := job.steps ++
        [{ name := stepName, startTime := clock, endTime := some (clock + 1),
           status := .failed, error := some e }] },
      clock + 2, .error e)

/-- The `catch` block's update of the current step: when the last step
has no end time yet, mark it failed with the job's error.  (After
`addJobStep` the last step always has an end time, so this is a
no-op on the pipeline paths.) -/
def failCurrentStep (job : JobStatus) (clock : Nat) (e : List Char) : JobStatus :=
  match job.steps.getLast? with
  | none => job
  | some st =>
    if st.endTime = none then
      { job with steps := job.steps.dropLast ++
          [{ st with endTime := some clock, status := .failed, error := some e }] }
    else
      job

/-- Shared failure path of `runFullDataSync`'s catch block: stamp end
time and duration, mark the job failed, record the error, patch the
current step if still open, and push the job into history. -/
def finalizeFailed (maxH : Nat) (hist : List JobStatus) (job : JobStatus)
    (clock : Nat) (e : List Char) :
    JobStatus × Except (List Char) Unit × List JobStatus :=
  let job2 :=
    { job with
      endTime := some clock,
      duration := some (clock - job.startTime),
      status := JobState.failed,
      error := some e }
  let job3 := failCurrentStep job2 (clock + 1) e
  (job3, .error e, addToHistory maxH hist job3)

/-- `runFullDataSync()`: the three-step pipeline (environment
validation, FTP sync, data conversion) with outcomes `o1 o2 o3`; a step
failure aborts the pipeline through the catch block.  Returns the final
`JobStatus`, the overall outcome, and the updated history. -/
def runFullDataSync (o1 o2 o3 : Except (List Char) Unit) (c0 : Nat)
    (jobId : List Char) (maxH : Nat) (hist : List JobStatus) :
    JobStatus × Except (List Char) Unit × List JobStatus :=
  let job0 : JobStatus :=
    { id := jobId, type := "full-data-sync".toList, startTime := c0, endTime := none,
      duration := none, status := .running, steps := [], error := none,
      ftpStats := none, conversionResults := none }
  let r1 := addJobStep job0 (c0 + 1) ("environment-validation".toList) o1
  match r1.2.2 with
  | .error e => finalizeFailed maxH hist r1.1 r1.2.1 e
  | .ok _ =>
    let r2 := addJobStep r1.1 r1.2.1 ("ftp-sync".toList) o2
    match r2.2.2 with
    | .error e => finalizeFailed maxH hist r2.1 r2.2.1 e
    | .ok _ =>
      let r3 := addJobStep r2.1 r2.2.1 ("data-conversion".toList) o3
      match r3.2.2 with
      | .error e => finalizeFailed maxH hist r3.1 r3.2.1 e
      | .ok _ =>
        let c := r3.2.1
        let jobDone :=
          { r3.1 with
            endTime := some c,
            duration := some (c - r3.1.startTime),
            status := JobState.completed }
        (jobDone, .ok (), addToHistory maxH hist jobDone)

/-! ### Concrete sample values used by witnesses and counterexamples -/

/-- All-zero `FTPSyncStats`, the initial value of `syncDirectory`. -/
def zeroStats : FTPSyncStats := ⟨0, 0, 0, []⟩

/-- A remote file entry whose local mirror is fresh (newer mtime, equal
size, positive size); every fetch outcome fails, which must not matter
because no fetch may be attempted. -/
def ctxFresh : FileCtx :=
  { name := ['a'], size := 100, mtimeMs := 50, isRegular := true,
    probe := .present 100 60, fetch := fun _ => .failOther, numAlts := 0 }

/-- A remote file entry of size 0 whose local mirror is also empty and
newer: mtime and size satisfy the claimed skip condition, yet the code
re-downloads it because the local size is 0. -/
def ctxZeroSize : FileCtx :=
  { name := ['a'], size := 0, mtimeMs := 0, isRegular := true,
    probe := .present 0 5, fetch := fun _ => .ok, numAlts := 0 }

/-- A missing local file whose every fetch attempt fails. -/
def ctxAllFail : FileCtx :=
  { name := ['b'], size := 5, mtimeMs := 10, isRegular := true,
    probe := .absent, fetch := fun _ => .failOther, numAlts := 2 }

/-- A terminal `JobStatus` carrying only an id (the other fields do not
matter for history claims). -/
def sampleJob (c : Char) : JobStatus :=
  { id := [c], type := [], startTime := 0, endTime := some 1, duration := some 1,
    status := .completed, steps := [], error := none, ftpStats := none,
    conversionResults := none }

/-! ### Helper lemmas -/

/-- Both values of the mapping table and the table's keys are needed
disjoint and nonempty for the normalizer proofs. -/
abbrev fixesDisjoint (fs : List EncFix) : Prop :=
  (∀ f ∈ fs, f.v ≠ []) ∧ ∀ f ∈ fs, ∀ g ∈ fs, ∀ c ∈ g.v, c ∉ fixKey f

theorem disconnect_eq_false (b : Bool) : disconnect b = false := by
  cases b <;> rfl

theorem fsGet_fsSet (fs : FS) (p : List Char) (n : Nat) :
    fsGet (fsSet fs p n) p = some n := by
  simp [fsGet, fsSet, List.find?]

theorem fsGet_fsRemove (fs : FS) (p : List Char) :
    fsGet (fsRemove fs p) p = none := by
  induction fs with
  | nil => rfl
  | cons e t ih =>
    by_cases h : e.1 == p
    · simp only [fsRemove, List.filter, h, Bool.not_true] at ih ⊢
      exact ih
    · simp only [fsRemove, fsGet, List.filter, List.find?, h, Bool.not_false] at ih ⊢
      exact ih

/-! ### C7: `syncAll` always disconnects -/

/-- C7: every invocation of `syncAll` leaves the adapter disconnected,
whether connection, any of the three directory syncs, or everything
succeeded or failed. -/
theorem claim7_syncAll_always_disconnects
    (conn0 : Bool) (co : ConnectOutcome) (d1 d2 d3 : DirRun) :
    (syncAll conn0 co d1 d2 d3).2 = false := by
  simp only [syncAll]
  repeat' split
  all_goals exact disconnect_eq_false _

/-! ### C9: `testConnection` on a connect timeout -/

/-- C9: when the connect attempt times out, `testConnection()` reports
`success = false` with a message containing `timeout`, leaves the
connection unmarked, and performs no local file writes. -/
theorem claim9_testConnection_timeout
    (listOutcome : Except (List Char) Nat) (fs : FS) :
    (testConnection false .timedOut listOutcome fs).1.success = false ∧
    (testConnection false .timedOut listOutcome fs).1.message =
      ("FTP connection test failed: FTP connection timeout").toList ∧
    (∃ p q, (testConnection false .timedOut listOutcome fs).1.message =
      p ++ ("timeout").toList ++ q) ∧
    (testConnection false .timedOut listOutcome fs).2.1 = false ∧
    (testConnection false .timedOut listOutcome fs).2.2 = fs := by
  refine ⟨rfl, rfl, ⟨("FTP connection test failed: FTP connection ").toList, [], rfl⟩, rfl, rfl⟩

/-! ### C5: cleanup of partial files on fetch failure -/

/-- C5 counterexample: a stalled fetch fails but leaves the partially
written local file in place (5 bytes at path `a` here), so the claim
that every failing fetch (including the stall timeout) removes the
partial file is false. -/
theorem claim5_counterexample :
    (downloadFile true [] ['a'] (.stalled 5)).1 =
      Except.error (("Download stalled").toList) ∧
    fsGet (downloadFile true [] ['a'] (.stalled 5)).2 ['a'] = some 5 := by
  exact ⟨rfl, rfl⟩

/-- C5 (amended): a fetch failing with a stream error or a write error
removes the partial local file before surfacing the failure; a completed
fetch leaves the downloaded bytes; a stall timeout fails the fetch but
leaves the partial file in place. -/
theorem claim5_partial_file_cleanup (fs : FS) (p m : List Char) (b : Nat) :
    ((∃ e, (downloadFile true fs p (.streamError b m)).1 = Except.error e) ∧
      fsGet (downloadFile true fs p (.streamError b m)).2 p = none) ∧
    ((∃ e, (downloadFile true fs p (.writeError b m)).1 = Except.error e) ∧
      fsGet (downloadFile true fs p (.writeError b m)).2 p = none) ∧
    ((downloadFile true fs p (.completed b)).1 = Except.ok () ∧
      fsGet (downloadFile true fs p (.completed b)).2 p = some b) ∧
    ((∃ e, (downloadFile true fs p (.stalled b)).1 = Except.error e) ∧
      fsGet (downloadFile true fs p (.stalled b)).2 p = some b) := by
  refine ⟨⟨⟨_, rfl⟩, ?_⟩, ⟨⟨_, rfl⟩, ?_⟩, ⟨rfl, ?_⟩, ⟨_, rfl⟩, ?_⟩
  · exact fsGet_fsRemove _ _
  · exact fsGet_fsRemove _ _
  · exact fsGet_fsSet _ _ _
  · exact fsGet_fsSet _ _ _

/-! ### C3: a pipeline job whose second step fails -/

/-- C3: when the first pipeline step succeeds and the second fails, the
job records exactly two steps — the first completed, the second failed
with the captured error — the job status is `failed`, the job error is
the failing step's error, and the failure is re-thrown. -/
theorem claim3_second_step_failure
    (e : List Char) (o3 : Except (List Char) Unit) (c0 : Nat)
    (jobId : List Char) (maxH : Nat) (hist : List JobStatus) :
    ((runFullDataSync (.ok ()) (.error e) o3 c0 jobId maxH hist).1.steps.map
        (fun st => (st.name, st.status, st.error))) =
      [(("environment-validation").toList, StepStatus.completed, none),
       (("ftp-sync").toList, StepStatus.failed, some e)] ∧
    (runFullDataSync (.ok ()) (.error e) o3 c0 jobId maxH hist).1.status = JobState.failed ∧
    (runFullDataSync (.ok ()) (.error e) o3 c0 jobId maxH hist).1.error = some e ∧
    (runFullDataSync (.ok ()) (.error e) o3 c0 jobId maxH hist).2.1 = Except.error e := by
  exact ⟨rfl, rfl, rfl, rfl⟩

/-! ### C6: transform subprocess exit-code contract -/

/-- C6: a non-zero exit code fails the transform with a message that
contains the captured stderr; a pipeline job whose transform step fails
with that message ends failed with the job error carrying it (hence the
stderr content); exit code 0 succeeds. -/
theorem claim6_transform_exit_contract
    (code : Option Int) (stdout stderr : List Char)
    (summaryRead : Except Unit (Option ConversionSummary)) (c0 : Nat)
    (jobId : List Char) (maxH : Nat) (hist : List JobStatus) :
    code ≠ some 0 →
    (runConversion (.closed code) stdout stderr summaryRead =
      Except.error (conversionFailureMessage code stderr)) ∧
    (∃ p, conversionFailureMessage code stderr = p ++ stderr) ∧
    ((runFullDataSync (.ok ()) (.ok ())
        (.error (conversionFailureMessage code stderr)) c0 jobId maxH hist).1.status =
      JobState.failed ∧
     (runFullDataSync (.ok ()) (.ok ())
        (.error (conversionFailureMessage code stderr)) c0 jobId maxH hist).1.error =
      some (conversionFailureMessage code stderr)) ∧
    (∃ res, runConversion (.closed (some 0)) stdout stderr summaryRead =
      Except.ok res ∧ res.success = true) := by
  intro h
  refine ⟨?_, ⟨_, rfl⟩, ⟨rfl, rfl⟩, ⟨_, rfl, rfl⟩⟩
  simp only [runConversion, if_neg h]

/-- C6 witness: exit code 1 with stderr `parse error line 12`. -/
theorem claim6_transform_exit_contract_witness :
    (runConversion (.closed (some 1)) [] (("parse error line 12").toList) (.error ()) =
      Except.error (conversionFailureMessage (some 1) (("parse error line 12").toList))) ∧
    (∃ p, conversionFailureMessage (some 1) (("parse error line 12").toList) =
      p ++ ("parse error line 12").toList) ∧
    ((runFullDataSync (.ok ()) (.ok ())
        (.error (conversionFailureMessage (some 1) (("parse error line 12").toList)))
        0 [] 100 []).1.status = JobState.failed ∧
     (runFullDataSync (.ok ()) (.ok ())
        (.error (conversionFailureMessage (some 1) (("parse error line 12").toList)))
        0 [] 100 []).1.error =
      some (conversionFailureMessage (some 1) (("parse error line 12").toList))) ∧
    (∃ res, runConversion (.closed (some 0)) [] (("parse error line 12").toList) (.error ()) =
      Except.ok res ∧ res.success = true) :=
  claim6_transform_exit_contract (some 1) [] (("parse error line 12").toList)
    (.error ()) 0 [] 100 [] (by decide)

/-! ### C4: bounded FIFO job history -/

theorem one_le_maxHistoryEntriesOf (o : Option Nat) : 1 ≤ maxHistoryEntriesOf o := by
  rcases o with _ | (_ | n) <;> simp [maxHistoryEntriesOf]

theorem addToHistory_eq_drop (maxH : Nat) (h1 : 1 ≤ maxH)
    (hist : List JobStatus) (j : JobStatus) :
    addToHistory maxH hist j =
      (hist ++ [j]).drop ((hist ++ [j]).length - maxH) := by
  simp only [addToHistory]
  split
  · unfold jsSliceNeg
    rw [if_neg (by omega)]
  · have h : (hist ++ [j]).length - maxH = 0 := by omega
    rw [h, List.drop_zero]

theorem addToHistory_length_le (maxH : Nat) (h1 : 1 ≤ maxH)
    (hist : List JobStatus) (j : JobStatus) (hlen : hist.length ≤ maxH) :
    (addToHistory maxH hist j).length ≤ maxH := by
  rw [addToHistory_eq_drop maxH h1, List.length_drop]
  simp only [List.length_append, List.length_singleton]
  omega

theorem foldl_addToHistory (maxH : Nat) (h1 : 1 ≤ maxH) :
    ∀ (L hist : List JobStatus), hist.length ≤ maxH →
    L.foldl (addToHistory maxH) hist = (hist ++ L).drop ((hist ++ L).length - maxH) := by
  intro L
  induction L with
  | nil =>
    intro hist hlen
    simp only [List.foldl_nil, List.append_nil]
    have h : hist.length - maxH = 0 := by omega
    rw [h, List.drop_zero]
  | cons x L ih =>
    intro hist hlen
    rw [List.foldl_cons, addToHistory_eq_drop maxH h1 hist x]
    have hlen2 :
        (List.drop ((hist ++ [x]).length - maxH) (hist ++ [x])).length ≤ maxH := by
      simp only [List.length_drop, List.length_append, List.length_singleton]
      omega
    rw [ih _ hlen2]
    have hdle : (hist ++ [x]).length - maxH ≤ (hist ++ [x]).length := by omega
    rw [← List.drop_append_of_le_length hdle, List.drop_drop]
    have hlist : (hist ++ [x]) ++ L = hist ++ x :: L := by simp
    rw [hlist]
    congr 1
    simp only [List.length_drop, List.length_append, List.length_singleton,
      List.length_cons, List.length_nil]
    omega

/-- C4: the history buffer never exceeds its configured capacity, a full
buffer evicts its oldest entry first on insertion (FIFO), and after
capacity + 1 terminal jobs (with a fresh id for the first) the first job
is no longer retrievable from `getJobHistory`. -/
theorem claim4_history_bounded_fifo (o : Option Nat) (hist : List JobStatus)
    (j : JobStatus) (rest : List JobStatus) (lim : Option Nat) :
    (hist.length ≤ maxHistoryEntriesOf o →
      (addToHistory (maxHistoryEntriesOf o) hist j).length ≤ maxHistoryEntriesOf o) ∧
    (hist.length = maxHistoryEntriesOf o →
      addToHistory (maxHistoryEntriesOf o) hist j = hist.drop 1 ++ [j]) ∧
    (rest.length = maxHistoryEntriesOf o →
      j.id ∉ rest.map (fun x => x.id) →
      j.id ∉ (getJobHistory ((j :: rest).foldl (addToHistory (maxHistoryEntriesOf o)) [])
        lim).map (fun x => x.id)) := by
  have h1 : 1 ≤ maxHistoryEntriesOf o := one_le_maxHistoryEntriesOf o
  refine ⟨fun hlen => addToHistory_length_le _ h1 hist j hlen, fun hlen => ?_, ?_⟩
  · rw [addToHistory_eq_drop _ h1]
    have harith : (hist ++ [j]).length - maxHistoryEntriesOf o = 1 := by
      simp only [List.length_append, List.length_singleton]
      omega
    rw [harith, List.drop_append_of_le_length (by omega)]
  · intro hlen hid
    have hstep : addToHistory (maxHistoryEntriesOf o) [] j = [j] := by
      unfold addToHistory jsSliceNeg
      rw [if_neg (by simp only [List.nil_append, List.length_singleton]; omega)]
      simp
    have hfold : (j :: rest).foldl (addToHistory (maxHistoryEntriesOf o)) [] = rest := by
      rw [List.foldl_cons, hstep,
        foldl_addToHistory _ h1 rest [j] (by simpa using h1)]
      have harith : ([j] ++ rest).length - maxHistoryEntriesOf o = 1 := by
        simp only [List.length_append, List.length_singleton]
        omega
      rw [harith]
      simp
    have hsub : ∀ (l : List JobStatus), (∀ x ∈ l, x ∈ rest) →
        j.id ∉ l.map (fun x => x.id) := by
      intro l hl hmem
      obtain ⟨x, hx, hxid⟩ := List.mem_map.mp hmem
      exact hid (List.mem_map.mpr ⟨x, hl x hx, hxid⟩)
    rw [hfold]
    unfold getJobHistory
    rcases lim with _ | (_ | n)
    · exact hsub _ (fun x hx => List.mem_reverse.mp hx)
    · exact hsub _ (fun x hx => List.mem_reverse.mp hx)
    · exact hsub _ (fun x hx => List.mem_reverse.mp (List.mem_of_mem_take hx))

/-- C4 witness at capacity 2: three entries in sequence. -/
theorem claim4_history_bounded_fifo_witness :
    (addToHistory 2 [sampleJob 'a', sampleJob 'b'] (sampleJob 'c')).length ≤ 2 ∧
    addToHistory 2 [sampleJob 'a', sampleJob 'b'] (sampleJob 'c') =
      [sampleJob 'a', sampleJob 'b'].drop 1 ++ [sampleJob 'c'] ∧
    (sampleJob 'c').id ∉
      (getJobHistory ((sampleJob 'c' :: [sampleJob 'd', sampleJob 'e']).foldl
        (addToHistory 2) []) none).map (fun x => x.id) :=
  have h := claim4_history_bounded_fifo (some 2) [sampleJob 'a', sampleJob 'b']
    (sampleJob 'c') [sampleJob 'd', sampleJob 'e'] none
  ⟨h.1 (by decide), h.2.1 (by decide), h.2.2 (by decide) (by decide)⟩

/-! ### C1: fresh local files are skipped without any fetch -/

/-- C1 counterexample: a remote file of size 0 whose local mirror has a
newer mtime and the identical size 0 (hence trivially within the
tolerance) is nevertheless re-downloaded, not skipped, and one fetch
attempt is performed (the returned oracle index is 1). -/
theorem claim1_counterexample :
    sizesAreCloseB 0 ctxZeroSize.size = true ∧
    ctxZeroSize.mtimeMs ≤ 5 ∧
    ctxZeroSize.probe = .present 0 5 ∧
    (processOuter [] [] ctxZeroSize 3 0 zeroStats).1.downloaded = 1 ∧
    (processOuter [] [] ctxZeroSize 3 0 zeroStats).1.skipped = 0 ∧
    (processOuter [] [] ctxZeroSize 3 0 zeroStats).2 = 1 := by
  decide

/-- C1 (amended): for a remote regular file whose local mirror exists
with a successful stat, mtime at least the remote mtime, size equal to
or within tolerance of the remote size, **and positive size**, the sync
pass counts the file as skipped and performs zero fetch attempts (the
fetch-outcome oracle index is returned unchanged). -/
theorem claim1_fresh_local_skipped (rd ld : List Char) (ctx : FileCtx)
    (i : Nat) (stats : FTPSyncStats) (lsize lmtime : Nat)
    (hp : ctx.probe = .present lsize lmtime)
    (hm : ctx.mtimeMs ≤ lmtime)
    (hs : lsize = ctx.size ∨ sizesAreCloseB lsize ctx.size = true)
    (hpos : 0 < lsize) :
    processOuter rd ld ctx 3 i stats = ({ stats with skipped := stats.skipped + 1 }, i) := by
  have hsd : shouldDownloadB ctx.probe ctx.size ctx.mtimeMs = false := by
    rw [hp]
    simp only [shouldDownloadB]
    rw [if_pos ⟨hm, hs, hpos⟩]
  simp only [processOuter, processFileWithRetry, hsd, Bool.false_eq_true, if_false]

/-- C1 witness: a 100-byte local file with newer mtime and equal size. -/
theorem claim1_fresh_local_skipped_witness :
    processOuter [] [] ctxFresh 3 0 zeroStats = (⟨0, 1, 0, []⟩, 0) :=
  claim1_fresh_local_skipped [] [] ctxFresh 0 zeroStats 100 60 rfl (by decide)
    (Or.inl rfl) (by decide)

/-! ### C2: a file failing every fetch attempt -/

theorem tryAlternatives_allFail (f : Nat → FetchResult) (hf : ∀ k, f k ≠ .ok) :
    ∀ (n i : Nat), (tryAlternatives f n i).1 = false := by
  intro n
  induction n with
  | zero => intro i; rfl
  | succ n ih =>
    intro i
    simp only [tryAlternatives]
    rw [if_neg (hf i)]
    exact ih (i + 1)

theorem dfwrAux_allFail (f : Nat → FetchResult) (numAlts : Nat)
    (hf : ∀ k, f k ≠ .ok) :
    ∀ (rem attempt i : Nat), (dfwrAux f numAlts rem attempt i).1 = false := by
  intro rem
  induction rem with
  | zero => intro attempt i; rfl
  | succ rem ih =>
    intro attempt i
    simp only [dfwrAux]
    rw [if_neg (hf i)]
    split
    · have hp : (tryAlternatives f numAlts (i + 1)).1 = false :=
        tryAlternatives_allFail f hf numAlts (i + 1)
      simp only [hp, Bool.false_eq_true, if_false]
      exact ih _ _
    · exact ih _ _

theorem processFileWithRetry_allFail (rd ld : List Char) (ctx : FileCtx)
    (i : Nat) (s : FTPSyncStats) (hf : ∀ k, ctx.fetch k ≠ .ok)
    (hsd : shouldDownloadB ctx.probe ctx.size ctx.mtimeMs = true) :
    processFileWithRetry rd ld ctx i s =
      (false, s, (downloadFileWithRetry ctx.fetch ctx.numAlts i).2) := by
  have h : (downloadFileWithRetry ctx.fetch ctx.numAlts i).1 = false :=
    dfwrAux_allFail ctx.fetch ctx.numAlts hf 3 1 i
  simp only [processFileWithRetry, hsd, if_true, h, Bool.false_eq_true, if_false]

theorem processOuter_allFail (rd ld : List Char) (ctx : FileCtx)
    (hf : ∀ k, ctx.fetch k ≠ .ok)
    (hsd : shouldDownloadB ctx.probe ctx.size ctx.mtimeMs = true) :
    ∀ (rem i : Nat) (s : FTPSyncStats),
      (processOuter rd ld ctx rem i s).1 = { s with errors := s.errors + 1 } := by
  intro rem
  induction rem with
  | zero => intro i s; rfl
  | succ rem ih =>
    intro i s
    simp only [processOuter, processFileWithRetry_allFail rd ld ctx i s hf hsd]
    exact ih _ s

/-- C2: a file whose every fetch attempt fails (including the
alternative-filename attempts) increments `errors` by exactly 1, leaves
`files` unchanged, and the directory sync continues with the remaining
files from that state. -/
theorem claim2_exhausted_retries (rd ld : List Char) (ctx : FileCtx)
    (rest : List FileCtx) (s : FTPSyncStats)
    (hf : ∀ k, ctx.fetch k ≠ FetchResult.ok)
    (hsd : shouldDownloadB ctx.probe ctx.size ctx.mtimeMs = true) :
    (processOuter rd ld ctx 3 0 s).1 = { s with errors := s.errors + 1 } ∧
    (processOuter rd ld ctx 3 0 s).1.files = s.files ∧
    (ctx :: rest).foldl (runFileStep rd ld) s =
      rest.foldl (runFileStep rd ld) { s with errors := s.errors + 1 } := by
  have h := processOuter_allFail rd ld ctx hf hsd 3 0 s
  refine ⟨h, by rw [h], ?_⟩
  rw [List.foldl_cons]
  unfold runFileStep
  rw [h]

/-- C2 witness: a missing local file whose fetches always fail. -/
theorem claim2_exhausted_retries_witness :
    (processOuter [] [] ctxAllFail 3 0 zeroStats).1 = ⟨0, 0, 1, []⟩ ∧
    (ctxAllFail :: []).foldl (runFileStep [] []) zeroStats =
      [].foldl (runFileStep [] []) ⟨0, 0, 1, []⟩ :=
  have h := claim2_exhausted_retries [] [] ctxAllFail [] zeroStats
    (fun k => by simp [ctxAllFail]) (by decide)
  ⟨h.1, h.2.2⟩

/-! ### C10: stats partition the listing -/

theorem processFileWithRetry_cases (rd ld : List Char) (ctx : FileCtx)
    (i : Nat) (s : FTPSyncStats) :
    (∃ fi j, processFileWithRetry rd ld ctx i s =
      (true, { s with downloaded := s.downloaded + 1, files := s.files ++ [fi] }, j)) ∨
    processFileWithRetry rd ld ctx i s = (true, { s with skipped := s.skipped + 1 }, i) ∨
    (∃ j, processFileWithRetry rd ld ctx i s = (false, s, j)) := by
  unfold processFileWithRetry
  split
  · cases hb : (downloadFileWithRetry ctx.fetch ctx.numAlts i).1
    · right; right
      refine ⟨(downloadFileWithRetry ctx.fetch ctx.numAlts i).2, ?_⟩
      simp only [hb, Bool.false_eq_true, if_false]
    · left
      refine ⟨⟨sanitizeFilename ctx.name, ctx.size,
          joinPath ld (sanitizeFilename ctx.name), joinPath rd ctx.name⟩,
        (downloadFileWithRetry ctx.fetch ctx.numAlts i).2, ?_⟩
      simp only [hb, if_true]
  · right; left; rfl

theorem processOuter_cases (rd ld : List Char) (ctx : FileCtx) :
    ∀ (rem i : Nat) (s : FTPSyncStats),
    (∃ fi j, processOuter rd ld ctx rem i s =
      ({ s with downloaded := s.downloaded + 1, files := s.files ++ [fi] }, j)) ∨
    (∃ j, processOuter rd ld ctx rem i s = ({ s with skipped := s.skipped + 1 }, j)) ∨
    (∃ j, processOuter rd ld ctx rem i s = ({ s with errors := s.errors + 1 }, j)) := by
  intro rem
  induction rem with
  | zero => intro i s; right; right; exact ⟨i, rfl⟩
  | succ rem ih =>
    intro i s
    simp only [processOuter]
    rcases processFileWithRetry_cases rd ld ctx i s with ⟨fi, j, heq⟩ | heq | ⟨j, heq⟩
    · rw [heq]; left; exact ⟨fi, j, rfl⟩
    · rw [heq]; right; left; exact ⟨i, rfl⟩
    · rw [heq]; exact ih j s

theorem runFileStep_accounting (rd ld : List Char) (s : FTPSyncStats) (ctx : FileCtx) :
    (runFileStep rd ld s ctx).downloaded + (runFileStep rd ld s ctx).skipped +
        (runFileStep rd ld s ctx).errors =
      s.downloaded + s.skipped + s.errors + 1 ∧
    (runFileStep rd ld s ctx).files.length + s.downloaded =
      s.files.length + (runFileStep rd ld s ctx).downloaded := by
  rcases processOuter_cases rd ld ctx 3 0 s with ⟨fi, j, heq⟩ | ⟨j, heq⟩ | ⟨j, heq⟩ <;>
    simp only [runFileStep, heq] <;>
    refine ⟨?_, ?_⟩ <;> (try simp) <;> omega

theorem foldl_runFileStep_accounting (rd ld : List Char) :
    ∀ (files : List FileCtx) (s : FTPSyncStats),
    (files.foldl (runFileStep rd ld) s).downloaded +
        (files.foldl (runFileStep rd ld) s).skipped +
        (files.foldl (runFileStep rd ld) s).errors =
      s.downloaded + s.skipped + s.errors + files.length ∧
    (files.foldl (runFileStep rd ld) s).files.length + s.downloaded =
      s.files.length + (files.foldl (runFileStep rd ld) s).downloaded := by
  intro files
  induction files with
  | nil => intro s; exact ⟨by simp, by simp⟩
  | cons c t ih =>
    intro s
    have h1 := runFileStep_accounting rd ld s c
    have h2 := ih (runFileStep rd ld s c)
    rw [List.foldl_cons]
    constructor
    · rw [h2.1, h1.1]
      simp only [List.length_cons]
      omega
    · have := h2.2
      have := h1.2
      omega

theorem chunkArrayAux_flatten (size : Nat) (hsize : 1 ≤ size) :
    ∀ (fuel : Nat) (l : List FileCtx), l.length ≤ fuel →
      (chunkArrayAux size fuel l).flatten = l := by
  intro fuel
  induction fuel with
  | zero =>
    intro l hl
    rw [List.eq_nil_of_length_eq_zero (Nat.le_zero.mp hl)]
    rfl
  | succ fuel ih =>
    intro l hl
    cases l with
    | nil => rfl
    | cons x xs =>
      have hdrop : ((x :: xs).drop size).length ≤ fuel := by
        simp only [List.length_drop, List.length_cons] at *
        omega
      simp only [chunkArrayAux, List.flatten_cons, ih _ hdrop]
      exact List.take_append_drop size (x :: xs)

theorem foldl_runBatch (rd ld : List Char) :
    ∀ (chunks : List (List FileCtx)) (s : FTPSyncStats),
      chunks.foldl (runBatch rd ld) s = (chunks.flatten).foldl (runFileStep rd ld) s := by
  intro chunks
  induction chunks with
  | nil => intro s; rfl
  | cons c t ih =>
    intro s
    rw [List.foldl_cons, List.flatten_cons, List.foldl_append, ih]
    rfl

theorem syncDirectory_eq_foldl (rd ld : List Char) (listing : List FileCtx) :
    syncDirectory rd ld listing =
      (listing.filter (fun f => f.isRegular)).foldl (runFileStep rd ld) zeroStats := by
  unfold syncDirectory chunkArray
  rw [foldl_runBatch, chunkArrayAux_flatten 20 (by omega) _ _ (le_refl _)]
  rfl

/-- C10: after a normally completing directory sync,
`downloaded + skipped + errors` equals the number of regular entries of
the listing, `files` has exactly one entry per downloaded file, and an
empty listing yields all-zero stats. -/
theorem claim10_stats_partition (rd ld : List Char) (listing : List FileCtx) :
    (syncDirectory rd ld listing).downloaded + (syncDirectory rd ld listing).skipped +
        (syncDirectory rd ld listing).errors =
      (listing.filter (fun f => f.isRegular)).length ∧
    (syncDirectory rd ld listing).files.length = (syncDirectory rd ld listing).downloaded ∧
    syncDirectory rd ld [] = zeroStats := by
  have h1 := (foldl_runFileStep_accounting rd ld (listing.filter (fun f => f.isRegular)) zeroStats).1
  have h2 := (foldl_runFileStep_accounting rd ld (listing.filter (fun f => f.isRegular)) zeroStats).2
  rw [syncDirectory_eq_foldl]
  simp only [show zeroStats.downloaded = 0 from rfl, show zeroStats.skipped = 0 from rfl,
    show zeroStats.errors = 0 from rfl,
    show zeroStats.files.length = 0 from rfl] at h1 h2
  exact ⟨by omega, by omega, rfl⟩

/-! ### C8: the filename normalizer is idempotent and identity off its
table

Key structural facts: every mapping value is nonempty and shares no
character with any mapping key, so a replacement can neither leave an
occurrence of its own key behind nor manufacture an occurrence of any
key across its boundaries. -/

theorem occursB_cons_of (k : List Char) (c : Char) (l : List Char)
    (h : occursB k l = true) : occursB k (c :: l) = true := by
  simp only [occursB, Bool.or_eq_true]
  right
  exact h

theorem occursB_cons_false (k : List Char) (c : Char) (l : List Char)
    (h : occursB k (c :: l) = false) :
    leadsWith k (c :: l) = false ∧ occursB k l = false := by
  constructor
  · cases hL : leadsWith k (c :: l)
    · rfl
    · exfalso
      have h2 : occursB k (c :: l) = true := by
        simp only [occursB, Bool.or_eq_true]
        left
        exact hL
      rw [h] at h2
      exact Bool.false_ne_true h2
  · cases hO : occursB k l
    · rfl
    · exfalso
      have h2 := occursB_cons_of k c l hO
      rw [h] at h2
      exact Bool.false_ne_true h2

theorem occursB_drop (k : List Char) :
    ∀ (n : Nat) (l : List Char), occursB k (l.drop n) = true → occursB k l = true := by
  intro n
  induction n with
  | zero => intro l h; simpa using h
  | succ n ih =>
    intro l h
    cases l with
    | nil => exact h
    | cons c t => exact occursB_cons_of k c t (ih t h)

theorem occursB_append (k0 : Char) (kt : List Char) :
    ∀ (a b : List Char), occursB (k0 :: kt) (a ++ b) = true →
      (∃ c ∈ a, c ∈ (k0 :: kt)) ∨ occursB (k0 :: kt) b = true := by
  intro a
  induction a with
  | nil => intro b h; right; exact h
  | cons x t ih =>
    intro b h
    simp only [List.cons_append, occursB, Bool.or_eq_true] at h
    rcases h with h | h
    · left
      refine ⟨x, List.mem_cons_self x t, ?_⟩
      simp only [leadsWith, Bool.and_eq_true] at h
      have hx : k0 = x := by simpa using h.1
      rw [← hx]
      exact List.mem_cons_self k0 kt
    · rcases ih b h with ⟨c, hc, hck⟩ | h2
      · exact Or.inl ⟨c, List.mem_cons_of_mem x hc, hck⟩
      · exact Or.inr h2

theorem leadsWith_replaceFromAux (k0 : Char) (kt v : List Char) (hv : v ≠ []) :
    ∀ (fuel : Nat) (s t : List Char), s.length ≤ fuel →
      (∀ c ∈ t, c ∉ v) →
      leadsWith t (replaceFromAux k0 kt v fuel s) = true → leadsWith t s = true := by
  intro fuel
  induction fuel with
  | zero => intro s t _ _ h; exact h
  | succ fuel ih =>
    intro s t hlen ht h
    cases s with
    | nil => exact h
    | cons c rest =>
      have hlen2 : rest.length ≤ fuel := by
        simp only [List.length_cons] at hlen
        omega
      by_cases hc : c = k0 ∧ leadsWith kt rest = true
      · rw [show replaceFromAux k0 kt v (fuel + 1) (c :: rest) =
            v ++ replaceFromAux k0 kt v fuel (rest.drop kt.length) by
          simp only [replaceFromAux, if_pos hc]] at h
        cases t with
        | nil => rfl
        | cons x ts =>
          exfalso
          cases v with
          | nil => exact hv rfl
          | cons vh vt =>
            simp only [List.cons_append, leadsWith, Bool.and_eq_true] at h
            have hx : x = vh := by simpa using h.1
            exact (ht x (List.mem_cons_self x ts)) (hx ▸ List.mem_cons_self vh vt)
      · rw [show replaceFromAux k0 kt v (fuel + 1) (c :: rest) =
            c :: replaceFromAux k0 kt v fuel rest by
          simp only [replaceFromAux, if_neg hc]] at h
        cases t with
        | nil => rfl
        | cons x ts =>
          simp only [leadsWith, Bool.and_eq_true] at h ⊢
          exact ⟨h.1, ih rest ts hlen2
            (fun c2 hc2 => ht c2 (List.mem_cons_of_mem x hc2)) h.2⟩

theorem occursB_replaceFromAux_self (k0 : Char) (kt v : List Char) (hv : v ≠ [])
    (hd : ∀ c ∈ v, c ∉ (k0 :: kt)) :
    ∀ (fuel : Nat) (s : List Char), s.length ≤ fuel →
      occursB (k0 :: kt) (replaceFromAux k0 kt v fuel s) = false := by
  intro fuel
  induction fuel with
  | zero =>
    intro s hlen
    rw [List.eq_nil_of_length_eq_zero (Nat.le_zero.mp hlen)]
    rfl
  | succ fuel ih =>
    intro s hlen
    cases s with
    | nil => rfl
    | cons c rest =>
      have hlen2 : rest.length ≤ fuel := by
        simp only [List.length_cons] at hlen
        omega
      by_cases hc : c = k0 ∧ leadsWith kt rest = true
      · rw [show replaceFromAux k0 kt v (fuel + 1) (c :: rest) =
            v ++ replaceFromAux k0 kt v fuel (rest.drop kt.length) by
          simp only [replaceFromAux, if_pos hc]]
        rcases Bool.eq_false_or_eq_true
          (occursB (k0 :: kt) (v ++ replaceFromAux k0 kt v fuel (rest.drop kt.length)))
          with ht | hf
        swap
        · exact hf
        exfalso
        rcases occursB_append k0 kt v _ ht with ⟨cc, hcv, hck⟩ | h2
        · exact hd cc hcv hck
        · have hlen3 : (rest.drop kt.length).length ≤ fuel := by
            simp only [List.length_drop]
            omega
          rw [ih _ hlen3] at h2
          exact Bool.false_ne_true h2
      · rw [show replaceFromAux k0 kt v (fuel + 1) (c :: rest) =
            c :: replaceFromAux k0 kt v fuel rest by
          simp only [replaceFromAux, if_neg hc]]
        have hR : occursB (k0 :: kt) (replaceFromAux k0 kt v fuel rest) = false :=
          ih rest hlen2
        have hL : leadsWith (k0 :: kt) (c :: replaceFromAux k0 kt v fuel rest) = false := by
          rcases Bool.eq_false_or_eq_true
            (leadsWith (k0 :: kt) (c :: replaceFromAux k0 kt v fuel rest)) with ht | hf
          swap
          · exact hf
          exfalso
          simp only [leadsWith, Bool.and_eq_true] at ht
          have hkt : ∀ x ∈ kt, x ∉ v := by
            intro x hx hxv
            exact hd x hxv (List.mem_cons_of_mem k0 hx)
          have h3 : leadsWith kt rest = true :=
            leadsWith_replaceFromAux k0 kt v hv fuel rest kt hlen2 hkt ht.2
          have h1 : c = k0 := by
            have := ht.1
            simp only [beq_iff_eq] at this
            exact this.symm
          exact hc ⟨h1, h3⟩
        simp only [occursB, hL, hR, Bool.or_self]

theorem occursB_replaceFromAux_other (k0 : Char) (kt v : List Char)
    (K0 : Char) (Kt : List Char) (hv : v ≠ []) (hd : ∀ c ∈ v, c ∉ (K0 :: Kt)) :
    ∀ (fuel : Nat) (s : List Char), s.length ≤ fuel →
      occursB (K0 :: Kt) s = false →
      occursB (K0 :: Kt) (replaceFromAux k0 kt v fuel s) = false := by
  intro fuel
  induction fuel with
  | zero => intro s _ hs; exact hs
  | succ fuel ih =>
    intro s hlen hs
    cases s with
    | nil => exact hs
    | cons c rest =>
      have hlen2 : rest.length ≤ fuel := by
        simp only [List.length_cons] at hlen
        omega
      have hsplit : leadsWith (K0 :: Kt) (c :: rest) = false ∧
          occursB (K0 :: Kt) rest = false := occursB_cons_false (K0 :: Kt) c rest hs
      by_cases hc : c = k0 ∧ leadsWith kt rest = true
      · rw [show replaceFromAux k0 kt v (fuel + 1) (c :: rest) =
            v ++ replaceFromAux k0 kt v fuel (rest.drop kt.length) by
          simp only [replaceFromAux, if_pos hc]]
        rcases Bool.eq_false_or_eq_true
          (occursB (K0 :: Kt) (v ++ replaceFromAux k0 kt v fuel (rest.drop kt.length)))
          with ht | hf
        swap
        · exact hf
        exfalso
        rcases occursB_append K0 Kt v _ ht with ⟨cc, hcv, hck⟩ | h2
        · exact hd cc hcv hck
        · have hdropF : occursB (K0 :: Kt) (rest.drop kt.length) = false := by
            rcases Bool.eq_false_or_eq_true (occursB (K0 :: Kt) (rest.drop kt.length))
              with h3 | h3
            · exfalso
              have h4 := occursB_drop (K0 :: Kt) kt.length rest h3
              rw [hsplit.2] at h4
              exact Bool.false_ne_true h4
            · exact h3
          have hlen3 : (rest.drop kt.length).length ≤ fuel := by
            simp only [List.length_drop]
            omega
          rw [ih _ hlen3 hdropF] at h2
          exact Bool.false_ne_true h2
      · rw [show replaceFromAux k0 kt v (fuel + 1) (c :: rest) =
            c :: replaceFromAux k0 kt v fuel rest by
          simp only [replaceFromAux, if_neg hc]]
        have hR : occursB (K0 :: Kt) (replaceFromAux k0 kt v fuel rest) = false :=
          ih rest hlen2 hsplit.2
        have hL : leadsWith (K0 :: Kt) (c :: replaceFromAux k0 kt v fuel rest) = false := by
          rcases Bool.eq_false_or_eq_true
            (leadsWith (K0 :: Kt) (c :: replaceFromAux k0 kt v fuel rest)) with ht | hf
          swap
          · exact hf
          exfalso
          simp only [leadsWith, Bool.and_eq_true] at ht
          have hKt : ∀ x ∈ Kt, x ∉ v := by
            intro x hx hxv
            exact hd x hxv (List.mem_cons_of_mem K0 hx)
          have h3 : leadsWith Kt rest = true :=
            leadsWith_replaceFromAux k0 kt v hv fuel rest Kt hlen2 hKt ht.2
          have h4 : leadsWith (K0 :: Kt) (c :: rest) = true := by
            simp only [leadsWith, Bool.and_eq_true]
            exact ⟨ht.1, h3⟩
          rw [hsplit.1] at h4
          exact Bool.false_ne_true h4
        simp only [occursB, hL, hR, Bool.or_self]

theorem replaceFromAux_id (k0 : Char) (kt v : List Char) :
    ∀ (fuel : Nat) (s : List Char), s.length ≤ fuel →
      occursB (k0 :: kt) s = false → replaceFromAux k0 kt v fuel s = s := by
  intro fuel
  induction fuel with
  | zero => intro s _ _; rfl
  | succ fuel ih =>
    intro s hlen hs
    cases s with
    | nil => rfl
    | cons c rest =>
      have hlen2 : rest.length ≤ fuel := by
        simp only [List.length_cons] at hlen
        omega
      have hrest : occursB (k0 :: kt) rest = false :=
        (occursB_cons_false (k0 :: kt) c rest hs).2
      by_cases hc : c = k0 ∧ leadsWith kt rest = true
      · exfalso
        have h4 : leadsWith (k0 :: kt) (c :: rest) = true := by
          simp only [leadsWith, Bool.and_eq_true]
          refine ⟨?_, hc.2⟩
          simp [hc.1]
        have h5 : occursB (k0 :: kt) (c :: rest) = true := by
          simp only [occursB, Bool.or_eq_true]
          left
          exact h4
        rw [hs] at h5
        exact Bool.false_ne_true h5
      · rw [show replaceFromAux k0 kt v (fuel + 1) (c :: rest) =
            c :: replaceFromAux k0 kt v fuel rest by
          simp only [replaceFromAux, if_neg hc]]
        rw [ih rest hlen2 hrest]

theorem occursB_applyFixes_other (K0 : Char) (Kt : List Char) :
    ∀ (fs : List EncFix), (∀ f ∈ fs, f.v ≠ [] ∧ ∀ c ∈ f.v, c ∉ (K0 :: Kt)) →
      ∀ s, occursB (K0 :: Kt) s = false →
        occursB (K0 :: Kt) (applyFixes fs s) = false := by
  intro fs
  induction fs with
  | nil => intro _ s hs; exact hs
  | cons f t ih =>
    intro hcond s hs
    have hf := hcond f (List.mem_cons_self f t)
    have happ : occursB (K0 :: Kt) (applyFix f s) = false :=
      occursB_replaceFromAux_other f.k0 f.kt f.v K0 Kt hf.1 hf.2 s.length s
        (le_refl _) hs
    exact ih (fun g hg => hcond g (List.mem_cons_of_mem f hg)) (applyFix f s) happ

theorem occursB_applyFixes_self :
    ∀ (fs : List EncFix), fixesDisjoint fs →
      ∀ f ∈ fs, ∀ s, occursB (fixKey f) (applyFixes fs s) = false := by
  intro fs
  induction fs with
  | nil => intro _ f hf; exact absurd hf (List.not_mem_nil f)
  | cons g t ih =>
    intro hdisj f hf s
    rcases List.mem_cons.mp hf with hfg | hft
    · subst hfg
      have hvne : f.v ≠ [] := hdisj.1 f (List.mem_cons_self f t)
      have hd : ∀ c ∈ f.v, c ∉ fixKey f :=
        hdisj.2 f (List.mem_cons_self f t) f (List.mem_cons_self f t)
      have hself : occursB (f.k0 :: f.kt) (applyFix f s) = false :=
        occursB_replaceFromAux_self f.k0 f.kt f.v hvne hd s.length s (le_refl _)
      exact occursB_applyFixes_other f.k0 f.kt t
        (fun h hh => ⟨hdisj.1 h (List.mem_cons_of_mem f hh),
          hdisj.2 f (List.mem_cons_self f t) h (List.mem_cons_of_mem f hh)⟩)
        (applyFix f s) hself
    · have hdisj2 : fixesDisjoint t :=
        ⟨fun h hh => hdisj.1 h (List.mem_cons_of_mem g hh),
          fun a ha b hb => hdisj.2 a (List.mem_cons_of_mem g ha) b
            (List.mem_cons_of_mem g hb)⟩
      exact ih hdisj2 f hft (applyFix g s)

theorem applyFixes_id :
    ∀ (fs : List EncFix) (s : List Char),
      (∀ f ∈ fs, occursB (fixKey f) s = false) → applyFixes fs s = s := by
  intro fs
  induction fs with
  | nil => intro s _; rfl
  | cons f t ih =>
    intro s h
    have h1 : applyFix f s = s :=
      replaceFromAux_id f.k0 f.kt f.v s.length s (le_refl _)
        (h f (List.mem_cons_self f t))
    show applyFixes t (applyFix f s) = s
    rw [h1]
    exact ih s (fun g hg => h g (List.mem_cons_of_mem f hg))

/-- C8: filename normalization is idempotent, acts as the identity on
names in which no corrupted-sequence mapping key occurs, and the table
is applied in its fixed order with the longer (4-character) keys before
the shorter (2-character) ones. -/
theorem claim8_sanitize_idempotent
    : (∀ s, sanitizeFilename (sanitizeFilename s) = sanitizeFilename s) ∧
      (∀ s, (∀ f ∈ encodingFixes, occursB (fixKey f) s = false) →
        sanitizeFilename s = s) ∧
      List.Pairwise (fun a b => (fixKey b).length ≤ (fixKey a).length) encodingFixes := by
  have hdisj : fixesDisjoint encodingFixes := by decide
  refine ⟨?_, ?_, by decide⟩
  · intro s
    exact applyFixes_id encodingFixes (applyFixes encodingFixes s)
      (fun f hf => occursB_applyFixes_self encodingFixes hdisj f hf s)
  · intro s h
    exact applyFixes_id encodingFixes s h

/-- C8 witness: a clean filename is untouched by the normalizer. -/
theorem claim8_sanitize_idempotent_witness :
    sanitizeFilename (("Katalog.xml").toList) = ("Katalog.xml").toList :=
  claim8_sanitize_idempotent.2.1 (("Katalog.xml").toList) (by decide)

end BotanServer
